import Mathlib

/-!
Shallow embedding of the to-do list manager (todo_list.py).

A Task mirrors the Python Task object: all fields are kept as the program
keeps them (status and dates as strings, the id as an optional integer that
the manager assigns).  Wall-clock readings (datetime.now().strftime(...))
are passed in explicitly as a string argument named now.  The backing JSON
file is modelled by FileState: missing (the path does not exist), malformed
(the contents cannot be parsed into a record, covering both invalid JSON and
undeserialisable task dictionaries, either of which raises and is caught),
or content d (a well-formed record d).  Every manager operation that the
Python code defines as a method returns its Python return value paired with
the successor state; read-only queries return their value alone.
-/

namespace Todo

/-- Python str.strip() as the program calls it: drop leading and trailing
whitespace characters from the character sequence. -/
def pyStrip (s : String) : String :=
  String.mk (((s.data.dropWhile Char.isWhitespace).reverse.dropWhile Char.isWhitespace).reverse)

/-- Python str.lower() as the program calls it: lowercase every character. -/
def pyLower (s : String) : String :=
  String.mk (s.data.map Char.toLower)

/-- One task record, field for field as Python's Task stores it. -/
structure Task where
  id : Option Nat
  description : String
  status : String
  priority : String
  category : String
  created_date : String
  completed_date : Option String
deriving Repr, DecidableEq

/-- The constructor Task.__init__: status starts pending, the creation date is
the clock reading passed as now, the id is unset until the manager assigns it. -/
def Task.init (description priority category now : String) : Task :=
  { id := none
    description := description
    status := "pending"
    priority := priority
    category := category
    created_date := now
    completed_date := none }

/-- Task.mark_completed: set status to completed and stamp completed_date with
the current clock reading. -/
def Task.mark_completed (t : Task) (now : String) : Task :=
  { t with status := "completed", completed_date := some now }

/-- The dictionary Task.to_dict builds: the same seven fields, value for value. -/
structure TaskDict where
  id : Option Nat
  description : String
  status : String
  priority : String
  category : String
  created_date : String
  completed_date : Option String
deriving Repr, DecidableEq

/-- Task.to_dict: field-for-field serialisation. -/
def Task.to_dict (t : Task) : TaskDict :=
  { id := t.id
    description := t.description
    status := t.status
    priority := t.priority
    category := t.category
    created_date := t.created_date
    completed_date := t.completed_date }

/-- Task.from_dict: rebuild the task from a dictionary; the constructor's fresh
status and creation date are overwritten by the stored values. -/
def Task.from_dict (d : TaskDict) : Task :=
  { id := d.id
    description := d.description
    status := d.status
    priority := d.priority
    category := d.category
    created_date := d.created_date
    completed_date := d.completed_date }

/-- The well-formed JSON record save_tasks writes: the counter and the task
dictionaries. -/
structure SaveData where
  next_id : Nat
  tasks : List TaskDict
deriving Repr, DecidableEq

/-- The backing file as the program can find it: absent, unreadable or
unparseable (json.load or Task.from_dict raises), or holding a record. -/
inductive FileState where
  | missing
  | malformed
  | content (d : SaveData)
deriving Repr, DecidableEq

/-- The manager state: the in-memory ordered task list, the next-id counter,
and the backing file it reads and rewrites. -/
structure TodoListManager where
  tasks : List Task
  next_id : Nat
  file : FileState
deriving Repr, DecidableEq

/-- save_tasks: rewrite the backing file with the counter and the serialised
tasks. -/
def TodoListManager.save_tasks (m : TodoListManager) : TodoListManager :=
  { m with file := FileState.content { next_id := m.next_id, tasks := m.tasks.map Task.to_dict } }

/-- load_tasks: a missing file leaves the state alone; a malformed one raises,
and the handler resets to the empty list and counter 1; a well-formed record
is deserialised field for field. -/
def TodoListManager.load_tasks (m : TodoListManager) : TodoListManager :=
  match m.file with
  | FileState.missing => m
  | FileState.malformed => { m with tasks := [], next_id := 1 }
  | FileState.content d => { m with next_id := d.next_id, tasks := d.tasks.map Task.from_dict }

/-- The constructor TodoListManager.__init__: start from the empty list and
counter 1, then load from the backing file. -/
def TodoListManager.init (data_file : FileState) : TodoListManager :=
  TodoListManager.load_tasks { tasks := [], next_id := 1, file := data_file }

/-- add_task: reject a description that is empty after stripping; otherwise
create the task from the stripped description, assign it the current next_id,
append it, bump the counter and save. -/
def TodoListManager.add_task (m : TodoListManager) (description priority category now : String) :
    Bool × TodoListManager :=
  if pyStrip description = "" then (false, m)
  else
    let task : Task := { Task.init (pyStrip description) priority category now with id := some m.next_id }
    (true, TodoListManager.save_tasks
      { m with tasks := m.tasks ++ [task], next_id := m.next_id + 1 })

/-- list_tasks: the full ordered sequence (the Python copy is observationally
the list itself). -/
def TodoListManager.list_tasks (m : TodoListManager) : List Task :=
  m.tasks

/-- list_pending_tasks: the pending tasks in original order. -/
def TodoListManager.list_pending_tasks (m : TodoListManager) : List Task :=
  m.tasks.filter (fun t => t.status == "pending")

/-- list_completed_tasks: the completed tasks in original order. -/
def TodoListManager.list_completed_tasks (m : TodoListManager) : List Task :=
  m.tasks.filter (fun t => t.status == "completed")

/-- The loop body of mark_task_completed: walk the list, and at the first task
whose description matches case-insensitively and whose status is pending,
mark it completed; none when no task qualifies. -/
def markFirstPending (task_description now : String) : List Task → Option (List Task)
  | [] => none
  | t :: ts =>
    if pyLower t.description == pyLower task_description && t.status == "pending" then
      some (t.mark_completed now :: ts)
    else
      (markFirstPending task_description now ts).map (fun us => t :: us)

/-- mark_task_completed: complete the first case-insensitive pending match and
save; return false and change nothing when there is none. -/
def TodoListManager.mark_task_completed (m : TodoListManager) (task_description now : String) :
    Bool × TodoListManager :=
  match markFirstPending task_description now m.tasks with
  | some ts => (true, TodoListManager.save_tasks { m with tasks := ts })
  | none => (false, m)

/-- The loop body of mark_task_completed_by_id: same walk, keyed by exact id. -/
def markFirstPendingById (task_id : Nat) (now : String) : List Task → Option (List Task)
  | [] => none
  | t :: ts =>
    if t.id == some task_id && t.status == "pending" then
      some (t.mark_completed now :: ts)
    else
      (markFirstPendingById task_id now ts).map (fun us => t :: us)

/-- mark_task_completed_by_id: complete the first pending task with the given
id and save; false and no change otherwise. -/
def TodoListManager.mark_task_completed_by_id (m : TodoListManager) (task_id : Nat) (now : String) :
    Bool × TodoListManager :=
  match markFirstPendingById task_id now m.tasks with
  | some ts => (true, TodoListManager.save_tasks { m with tasks := ts })
  | none => (false, m)

/-- The loop body of remove_task: drop the first case-insensitive match, any
status; none when no task matches. -/
def removeFirst (task_description : String) : List Task → Option (List Task)
  | [] => none
  | t :: ts =>
    if pyLower t.description == pyLower task_description then
      some ts
    else
      (removeFirst task_description ts).map (fun us => t :: us)

/-- remove_task: remove the first case-insensitive match and save; false and
no change when there is none. -/
def TodoListManager.remove_task (m : TodoListManager) (task_description : String) :
    Bool × TodoListManager :=
  match removeFirst task_description m.tasks with
  | some ts => (true, TodoListManager.save_tasks { m with tasks := ts })
  | none => (false, m)

/-- clear_all_tasks: empty the list, reset the counter to 1, save, return true. -/
def TodoListManager.clear_all_tasks (m : TodoListManager) : Bool × TodoListManager :=
  (true, TodoListManager.save_tasks { m with tasks := [], next_id := 1 })

/-- get_task_by_description: the first case-insensitive match, any status;
none models Python's None. -/
def TodoListManager.get_task_by_description (m : TodoListManager) (description : String) :
    Option Task :=
  m.tasks.find? (fun t => pyLower t.description == pyLower description)

/-- is_empty: whether the list has no tasks. -/
def TodoListManager.is_empty (m : TodoListManager) : Bool :=
  m.tasks.length == 0

/-- contains_task: whether any task matches the description case-insensitively. -/
def TodoListManager.contains_task (m : TodoListManager) (description : String) : Bool :=
  m.tasks.any (fun t => pyLower t.description == pyLower description)

/-- The mutating manager operations a caller can invoke, each carrying the
clock reading of its call; the read-only queries do not change the state. -/
inductive Op where
  | add (description priority category now : String)
  | markCompleted (task_description now : String)
  | markCompletedById (task_id : Nat) (now : String)
  | remove (task_description : String)
  | clear
deriving Repr, DecidableEq

/-- The manager state after one operation (the Boolean result is dropped). -/
def applyOp (m : TodoListManager) : Op → TodoListManager
  | Op.add description priority category now => (m.add_task description priority category now).2
  | Op.markCompleted task_description now => (m.mark_task_completed task_description now).2
  | Op.markCompletedById task_id now => (m.mark_task_completed_by_id task_id now).2
  | Op.remove task_description => (m.remove_task task_description).2
  | Op.clear => m.clear_all_tasks.2

/-- Run a sequence of operations left to right from a starting state. -/
def run (m : TodoListManager) : List Op → TodoListManager
  | [] => m
  | op :: ops => run (applyOp m op) ops

/-- The id values assigned by the successful add_task calls of a sequence of
operations, in assignment order. -/
def assignedIds (m : TodoListManager) : List Op → List Nat
  | [] => []
  | op :: ops =>
    match op with
    | Op.add description _ _ _ =>
      if pyStrip description = "" then assignedIds (applyOp m op) ops
      else m.next_id :: assignedIds (applyOp m op) ops
    | _ => assignedIds (applyOp m op) ops

/-- A concrete manager holding one pending task, for the witness statements. -/
def demoMgr : TodoListManager :=
  ((TodoListManager.init FileState.missing).add_task "Buy milk" "medium" "general" "t1").2

/-- Serialising a task and deserialising the dictionary restores the task. -/
theorem Task.from_dict_to_dict (t : Task) : Task.from_dict (Task.to_dict t) = t :=
  rfl

/-- C1: saving a manager state and constructing a new manager on the written
file restores the task sequence, every field included, and the next-id
counter. -/
theorem save_load_round_trip (m : TodoListManager) :
    (TodoListManager.init (TodoListManager.save_tasks m).file).tasks = m.tasks ∧
    (TodoListManager.init (TodoListManager.save_tasks m).file).next_id = m.next_id := by
  constructor
  · simp [TodoListManager.init, TodoListManager.save_tasks, TodoListManager.load_tasks,
      List.map_map, Function.comp_def, Task.from_dict_to_dict]
  · rfl

/-- C8: a manager constructed on a missing or malformed backing file starts
with the empty task list and counter 1; the load failure is swallowed (the
load function is total and returns this fallback state). -/
theorem init_missing_or_malformed :
    (TodoListManager.init FileState.missing).tasks = [] ∧
    (TodoListManager.init FileState.missing).next_id = 1 ∧
    (TodoListManager.init FileState.malformed).tasks = [] ∧
    (TodoListManager.init FileState.malformed).next_id = 1 := by
  refine ⟨rfl, rfl, rfl, rfl⟩

/-- C3: on a description that is non-empty after stripping, add_task succeeds,
appends exactly one task holding the stripped description, the current
next_id, pending status and the given priority, category and creation time,
and bumps the counter; the two-add scenario from the empty manager yields
ids 1 and 2 in insertion order. -/
theorem add_task_appends (m : TodoListManager) (description priority category now : String)
    (h : pyStrip description ≠ "") :
    (m.add_task description priority category now).1 = true ∧
    (m.add_task description priority category now).2.tasks =
      m.tasks ++ [{ id := some m.next_id, description := pyStrip description, status := "pending",
                    priority := priority, category := category, created_date := now,
                    completed_date := none }] ∧
    (m.add_task description priority category now).2.next_id = m.next_id + 1 ∧
    (((TodoListManager.init FileState.missing).add_task "Buy milk" "medium" "general" "t1").2.add_task
        "Buy eggs" "medium" "general" "t2").2.list_tasks.map (fun t => (t.id, t.description)) =
      [(some 1, "Buy milk"), (some 2, "Buy eggs")] := by
  refine ⟨?_, ?_, ?_, by decide⟩
  · simp [TodoListManager.add_task, h]
  · simp [TodoListManager.add_task, TodoListManager.save_tasks, Task.init, h]
  · simp [TodoListManager.add_task, TodoListManager.save_tasks, h]

/-- Witness for C3 at a concrete manager and description. -/
theorem add_task_appends_witness :
    ((TodoListManager.init FileState.missing).add_task "Buy bread" "high" "errands" "t1").1 = true :=
  (add_task_appends (TodoListManager.init FileState.missing) "Buy bread" "high" "errands" "t1"
    (by decide)).1

/-- C4: on a description that strips to the empty string, add_task returns
false and the whole state, backing file included, is unchanged. -/
theorem add_task_empty_rejected (m : TodoListManager) (description priority category now : String)
    (h : pyStrip description = "") :
    m.add_task description priority category now = (false, m) := by
  simp [TodoListManager.add_task, h]

/-- Witness for C4: adding a blank description to a concrete manager fails and
changes nothing. -/
theorem add_task_empty_rejected_witness :
    demoMgr.add_task "   " "medium" "general" "t2" = (false, demoMgr) :=
  add_task_empty_rejected demoMgr "   " "medium" "general" "t2" (by decide)

/-- C7: clear_all_tasks returns true, empties the sequence, resets the counter
to 1, and a task added immediately afterwards receives id 1 again. -/
theorem clear_all_tasks_spec (m : TodoListManager) :
    (m.clear_all_tasks).1 = true ∧
    (m.clear_all_tasks).2.tasks = [] ∧
    (m.clear_all_tasks).2.next_id = 1 ∧
    ∀ description priority category now, pyStrip description ≠ "" →
      ((m.clear_all_tasks).2.add_task description priority category now).2.tasks =
        [{ id := some 1, description := pyStrip description, status := "pending",
           priority := priority, category := category, created_date := now,
           completed_date := none }] := by
  refine ⟨rfl, rfl, rfl, ?_⟩
  intro description priority category now h
  simp [TodoListManager.clear_all_tasks, TodoListManager.add_task, TodoListManager.save_tasks,
    Task.init, h]

/-- C9 counterexample: marking an already completed task again at a later
clock reading overwrites completed_date, so the task is not equal to the
once-completed task; applying the operation twice is not idempotent at the
field level when the clock has advanced. -/
theorem mark_completed_not_field_idempotent :
    ¬ (((Task.init "Buy milk" "medium" "general" "t0").mark_completed "t1").mark_completed "t2" =
        (Task.init "Buy milk" "medium" "general" "t0").mark_completed "t1") := by
  decide

/-- C9 amended: marking completed twice is idempotent when the clock reading
is unchanged; at a later reading every field but completed_date is that of the
once-completed task, and completed_date is overwritten with the later time. -/
theorem mark_completed_idempotent_same_time (t : Task) (now later : String) :
    (t.mark_completed now).mark_completed now = t.mark_completed now ∧
    ((t.mark_completed now).mark_completed later).status = (t.mark_completed now).status ∧
    ((t.mark_completed now).mark_completed later).id = t.id ∧
    ((t.mark_completed now).mark_completed later).description = t.description ∧
    ((t.mark_completed now).mark_completed later).priority = t.priority ∧
    ((t.mark_completed now).mark_completed later).category = t.category ∧
    ((t.mark_completed now).mark_completed later).created_date = t.created_date ∧
    ((t.mark_completed now).mark_completed later).completed_date = some later := by
  refine ⟨rfl, rfl, rfl, rfl, rfl, rfl, rfl, rfl⟩

/-- The completion walk finds nothing exactly when no task both matches the
description case-insensitively and is pending. -/
theorem markFirstPending_eq_none (task_description now : String) (ts : List Task) :
    markFirstPending task_description now ts = none ↔
      ∀ t ∈ ts, ¬ (pyLower t.description = pyLower task_description ∧ t.status = "pending") := by
  induction ts with
  | nil => simp [markFirstPending]
  | cons t ts ih =>
    rw [markFirstPending]
    by_cases hc : (pyLower t.description == pyLower task_description && t.status == "pending") = true
    · rw [if_pos hc]
      simp only [Bool.and_eq_true, beq_iff_eq] at hc
      constructor
      · intro h
        exact absurd h (Option.some_ne_none _)
      · intro h
        exact absurd hc (h t (List.mem_cons_self t ts))
    · rw [if_neg hc]
      simp only [Bool.and_eq_true, beq_iff_eq] at hc
      rw [Option.map_eq_none', ih]
      constructor
      · intro h u hu
        rcases List.mem_cons.mp hu with rfl | hu
        · exact hc
        · exact h u hu
      · intro h u hu
        exact h u (List.mem_cons_of_mem t hu)

/-- When the completion walk succeeds, the list splits at the first pending
match, and only that task is rewritten. -/
theorem markFirstPending_eq_some (task_description now : String) (ts us : List Task)
    (h : markFirstPending task_description now ts = some us) :
    ∃ l₁ t l₂, ts = l₁ ++ t :: l₂ ∧
      (∀ u ∈ l₁, ¬ (pyLower u.description = pyLower task_description ∧ u.status = "pending")) ∧
      pyLower t.description = pyLower task_description ∧ t.status = "pending" ∧
      us = l₁ ++ t.mark_completed now :: l₂ := by
  induction ts generalizing us with
  | nil => simp [markFirstPending] at h
  | cons t ts ih =>
    rw [markFirstPending] at h
    by_cases hc : (pyLower t.description == pyLower task_description && t.status == "pending") = true
    · rw [if_pos hc] at h
      simp only [Bool.and_eq_true, beq_iff_eq] at hc
      refine ⟨[], t, ts, by simp, by simp, hc.1, hc.2, ?_⟩
      simpa using (Option.some.inj h).symm
    · rw [if_neg hc] at h
      simp only [Bool.and_eq_true, beq_iff_eq] at hc
      rcases Option.map_eq_some'.mp h with ⟨vs, hvs, rfl⟩
      obtain ⟨l₁, u, l₂, rfl, hl₁, hu1, hu2, rfl⟩ := ih vs hvs
      refine ⟨t :: l₁, u, l₂, rfl, ?_, hu1, hu2, rfl⟩
      intro w hw
      rcases List.mem_cons.mp hw with rfl | hw
      · exact hc
      · exact hl₁ w hw

/-- The removal walk finds nothing exactly when no task matches the
description case-insensitively. -/
theorem removeFirst_eq_none (task_description : String) (ts : List Task) :
    removeFirst task_description ts = none ↔
      ∀ t ∈ ts, pyLower t.description ≠ pyLower task_description := by
  induction ts with
  | nil => simp [removeFirst]
  | cons t ts ih =>
    rw [removeFirst]
    by_cases hc : (pyLower t.description == pyLower task_description) = true
    · rw [if_pos hc]
      rw [beq_iff_eq] at hc
      constructor
      · intro h
        exact absurd h (Option.some_ne_none _)
      · intro h
        exact absurd hc (h t (List.mem_cons_self t ts))
    · rw [if_neg hc]
      rw [beq_iff_eq] at hc
      rw [Option.map_eq_none', ih]
      constructor
      · intro h u hu
        rcases List.mem_cons.mp hu with rfl | hu
        · exact hc
        · exact h u hu
      · intro h u hu
        exact h u (List.mem_cons_of_mem t hu)

/-- When the removal walk succeeds, the list splits at the first match and the
result drops exactly that task. -/
theorem removeFirst_eq_some (task_description : String) (ts us : List Task)
    (h : removeFirst task_description ts = some us) :
    ∃ l₁ t l₂, ts = l₁ ++ t :: l₂ ∧
      (∀ u ∈ l₁, pyLower u.description ≠ pyLower task_description) ∧
      pyLower t.description = pyLower task_description ∧
      us = l₁ ++ l₂ := by
  induction ts generalizing us with
  | nil => simp [removeFirst] at h
  | cons t ts ih =>
    rw [removeFirst] at h
    by_cases hc : (pyLower t.description == pyLower task_description) = true
    · rw [if_pos hc] at h
      rw [beq_iff_eq] at hc
      refine ⟨[], t, ts, by simp, by simp, hc, ?_⟩
      simpa using (Option.some.inj h).symm
    · rw [if_neg hc] at h
      rw [beq_iff_eq] at hc
      rcases Option.map_eq_some'.mp h with ⟨vs, hvs, rfl⟩
      obtain ⟨l₁, u, l₂, rfl, hl₁, hu1, rfl⟩ := ih vs hvs
      refine ⟨t :: l₁, u, l₂, rfl, ?_, hu1, rfl⟩
      intro w hw
      rcases List.mem_cons.mp hw with rfl | hw
      · exact hc
      · exact hl₁ w hw

/-- C5: mark_task_completed succeeds exactly when some task matches the
description case-insensitively and is pending; on failure nothing changes; on
success the first such task, and only it, transitions to completed with its
completed_date stamped; and once no pending match is left, a second call
returns failure and changes nothing. -/
theorem mark_task_completed_spec (m : TodoListManager) (task_description now : String) :
    ((m.mark_task_completed task_description now).1 = true ↔
      ∃ t ∈ m.tasks, pyLower t.description = pyLower task_description ∧ t.status = "pending") ∧
    ((m.mark_task_completed task_description now).1 = false →
      (m.mark_task_completed task_description now).2 = m) ∧
    ((m.mark_task_completed task_description now).1 = true →
      ∃ l₁ t l₂, m.tasks = l₁ ++ t :: l₂ ∧
        (∀ u ∈ l₁, ¬ (pyLower u.description = pyLower task_description ∧ u.status = "pending")) ∧
        pyLower t.description = pyLower task_description ∧ t.status = "pending" ∧
        (m.mark_task_completed task_description now).2.tasks =
          l₁ ++ { t with status := "completed", completed_date := some now } :: l₂ ∧
        (m.mark_task_completed task_description now).2.next_id = m.next_id) ∧
    (∀ later,
      (¬ ∃ u ∈ (m.mark_task_completed task_description now).2.tasks,
          pyLower u.description = pyLower task_description ∧ u.status = "pending") →
      (m.mark_task_completed task_description now).2.mark_task_completed task_description later =
        (false, (m.mark_task_completed task_description now).2)) := by
  have hgen : ∀ (s : TodoListManager) (later : String),
      (¬ ∃ u ∈ s.tasks, pyLower u.description = pyLower task_description ∧ u.status = "pending") →
      s.mark_task_completed task_description later = (false, s) := by
    intro s later hno
    have hall : ∀ u ∈ s.tasks,
        ¬ (pyLower u.description = pyLower task_description ∧ u.status = "pending") := by
      intro u hu hcon
      exact hno ⟨u, hu, hcon⟩
    have hnone : markFirstPending task_description later s.tasks = none :=
      (markFirstPending_eq_none task_description later s.tasks).mpr hall
    simp [TodoListManager.mark_task_completed, hnone]
  cases hm : markFirstPending task_description now m.tasks with
  | none =>
    have hall := (markFirstPending_eq_none task_description now m.tasks).mp hm
    refine ⟨?_, ?_, ?_, ?_⟩
    · simp only [TodoListManager.mark_task_completed, hm]
      constructor
      · intro h
        exact absurd h (by simp)
      · intro hex
        obtain ⟨t, ht, h1, h2⟩ := hex
        exact absurd ⟨h1, h2⟩ (hall t ht)
    · intro _
      simp [TodoListManager.mark_task_completed, hm]
    · intro h
      rw [TodoListManager.mark_task_completed, hm] at h
      exact absurd h (by simp)
    · intro later hno
      exact hgen _ later hno
  | some us =>
    obtain ⟨l₁, t, l₂, hts, hl₁, h1, h2, hus⟩ :=
      markFirstPending_eq_some task_description now m.tasks us hm
    refine ⟨?_, ?_, ?_, ?_⟩
    · simp only [TodoListManager.mark_task_completed, hm]
      constructor
      · intro _
        exact ⟨t, by rw [hts]; simp, h1, h2⟩
      · intro _
        trivial
    · intro h
      rw [TodoListManager.mark_task_completed, hm] at h
      exact absurd h (by simp)
    · intro _
      refine ⟨l₁, t, l₂, hts, hl₁, h1, h2, ?_, ?_⟩
      · simp only [TodoListManager.mark_task_completed, hm, TodoListManager.save_tasks, hus]
        rfl
      · simp [TodoListManager.mark_task_completed, hm, TodoListManager.save_tasks]
    · intro later hno
      exact hgen _ later hno

/-- C6: remove_task succeeds exactly when some task of any status matches the
description case-insensitively; on failure nothing changes; the counter is
never changed; on success exactly the first match is dropped, the others
keeping their order and fields; and a subsequent add_task is assigned the
counter value, which under the counter invariant is no removed task's id. -/
theorem remove_task_spec (m : TodoListManager) (task_description : String) :
    ((m.remove_task task_description).1 = true ↔
      ∃ t ∈ m.tasks, pyLower t.description = pyLower task_description) ∧
    ((m.remove_task task_description).1 = false → (m.remove_task task_description).2 = m) ∧
    ((m.remove_task task_description).2.next_id = m.next_id) ∧
    ((m.remove_task task_description).1 = true →
      ∃ l₁ t l₂, m.tasks = l₁ ++ t :: l₂ ∧
        (∀ u ∈ l₁, pyLower u.description ≠ pyLower task_description) ∧
        pyLower t.description = pyLower task_description ∧
        (m.remove_task task_description).2.tasks = l₁ ++ l₂) ∧
    (∀ description priority category now, pyStrip description ≠ "" →
      ((m.remove_task task_description).2.add_task description priority category now).2.tasks =
        (m.remove_task task_description).2.tasks ++
          [{ id := some m.next_id, description := pyStrip description, status := "pending",
             priority := priority, category := category, created_date := now,
             completed_date := none }]) ∧
    ((∀ t ∈ m.tasks, ∀ i, t.id = some i → i < m.next_id) →
      ∀ t ∈ m.tasks, t.id ≠ some m.next_id) := by
  have hnid : (m.remove_task task_description).2.next_id = m.next_id := by
    cases hr : removeFirst task_description m.tasks <;>
      simp [TodoListManager.remove_task, hr, TodoListManager.save_tasks]
  have hlast : (∀ t ∈ m.tasks, ∀ i, t.id = some i → i < m.next_id) →
      ∀ t ∈ m.tasks, t.id ≠ some m.next_id := by
    intro hwf t ht hid
    exact absurd (hwf t ht m.next_id hid) (lt_irrefl m.next_id)
  have hadd : ∀ description priority category now, pyStrip description ≠ "" →
      ((m.remove_task task_description).2.add_task description priority category now).2.tasks =
        (m.remove_task task_description).2.tasks ++
          [{ id := some m.next_id, description := pyStrip description, status := "pending",
             priority := priority, category := category, created_date := now,
             completed_date := none }] := by
    intro description priority category now h
    simp [TodoListManager.add_task, h, TodoListManager.save_tasks, Task.init, hnid]
  cases hr : removeFirst task_description m.tasks with
  | none =>
    have hall := (removeFirst_eq_none task_description m.tasks).mp hr
    refine ⟨?_, ?_, hnid, ?_, hadd, hlast⟩
    · simp only [TodoListManager.remove_task, hr]
      constructor
      · intro h
        exact absurd h (by simp)
      · intro hex
        obtain ⟨t, ht, h1⟩ := hex
        exact absurd h1 (hall t ht)
    · intro _
      simp [TodoListManager.remove_task, hr]
    · intro h
      rw [TodoListManager.remove_task, hr] at h
      exact absurd h (by simp)
  | some us =>
    obtain ⟨l₁, t, l₂, hts, hl₁, h1, hus⟩ :=
      removeFirst_eq_some task_description m.tasks us hr
    refine ⟨?_, ?_, hnid, ?_, hadd, hlast⟩
    · simp only [TodoListManager.remove_task, hr]
      constructor
      · intro _
        exact ⟨t, by rw [hts]; simp, h1⟩
      · intro _
        trivial
    · intro h
      rw [TodoListManager.remove_task, hr] at h
      exact absurd h (by simp)
    · intro _
      refine ⟨l₁, t, l₂, hts, hl₁, h1, ?_⟩
      simp only [TodoListManager.remove_task, hr, TodoListManager.save_tasks, hus]

/-- A successful find? splits the list at the first element satisfying the
predicate. -/
theorem find?_first_match (p : Task → Bool) (l : List Task) (t : Task)
    (h : l.find? p = some t) :
    ∃ l₁ l₂, l = l₁ ++ t :: l₂ ∧ ∀ u ∈ l₁, p u = false := by
  induction l with
  | nil => simp at h
  | cons a l ih =>
    by_cases ha : p a = true
    · rw [List.find?_cons_of_pos _ ha] at h
      obtain rfl := Option.some.inj h
      exact ⟨[], l, by simp, by simp⟩
    · have ha' : p a = false := by simpa using ha
      rw [List.find?_cons_of_neg _ (by simp [ha'])] at h
      obtain ⟨l₁, l₂, rfl, hl₁⟩ := ih h
      refine ⟨a :: l₁, l₂, rfl, ?_⟩
      intro u hu
      rcases List.mem_cons.mp hu with rfl | hu
      · exact ha'
      · exact hl₁ u hu

/-- C10: contains_task is true exactly when get_task_by_description returns a
task rather than none; both use the same case-insensitive description match
over tasks of any status, and the task returned is the first match in list
order. -/
theorem contains_get_agree (m : TodoListManager) (description : String) :
    (m.contains_task description = true ↔
      ∃ t ∈ m.tasks, pyLower t.description = pyLower description) ∧
    (m.contains_task description = true ↔
      (m.get_task_by_description description).isSome = true) ∧
    (∀ t, m.get_task_by_description description = some t →
      t ∈ m.tasks ∧ pyLower t.description = pyLower description ∧
      ∃ l₁ l₂, m.tasks = l₁ ++ t :: l₂ ∧
        ∀ u ∈ l₁, pyLower u.description ≠ pyLower description) := by
  refine ⟨?_, ?_, ?_⟩
  · simp only [TodoListManager.contains_task, List.any_eq_true, beq_iff_eq]
  · simp only [TodoListManager.contains_task, TodoListManager.get_task_by_description,
      List.any_eq_true, List.find?_isSome]
  · intro t h
    have h1 : t ∈ m.tasks := List.mem_of_find?_eq_some h
    have h2 : pyLower t.description = pyLower description := by
      have := List.find?_some h
      rwa [beq_iff_eq] at this
    obtain ⟨l₁, l₂, heq, hl₁⟩ := find?_first_match _ _ _ h
    refine ⟨h1, h2, l₁, l₂, heq, ?_⟩
    intro u hu
    have := hl₁ u hu
    intro hcon
    rw [show (pyLower u.description == pyLower description) = true from beq_iff_eq.mpr hcon] at this
    exact absurd this (by simp)

/-- Every operation other than clear_all_tasks leaves the counter equal or
larger. -/
theorem next_id_applyOp (m : TodoListManager) (op : Op) (h : op ≠ Op.clear) :
    m.next_id ≤ (applyOp m op).next_id := by
  cases op with
  | add description priority category now =>
    by_cases hd : pyStrip description = ""
    · simp [applyOp, TodoListManager.add_task, hd]
    · simp [applyOp, TodoListManager.add_task, hd, TodoListManager.save_tasks]
  | markCompleted task_description now =>
    cases hm : markFirstPending task_description now m.tasks <;>
      simp [applyOp, TodoListManager.mark_task_completed, hm, TodoListManager.save_tasks]
  | markCompletedById task_id now =>
    cases hm : markFirstPendingById task_id now m.tasks <;>
      simp [applyOp, TodoListManager.mark_task_completed_by_id, hm, TodoListManager.save_tasks]
  | remove task_description =>
    cases hr : removeFirst task_description m.tasks <;>
      simp [applyOp, TodoListManager.remove_task, hr, TodoListManager.save_tasks]
  | clear =>
    exact absurd rfl h

/-- Over a sequence free of clear_all_tasks the counter never decreases. -/
theorem next_id_run (ops : List Op) :
    ∀ m : TodoListManager, Op.clear ∉ ops → m.next_id ≤ (run m ops).next_id := by
  induction ops with
  | nil =>
    intro m _
    exact le_refl m.next_id
  | cons op ops ih =>
    intro m h
    have h1 : op ≠ Op.clear := by
      intro he
      exact h (he ▸ List.mem_cons_self op ops)
    have h2 : Op.clear ∉ ops := fun hin => h (List.mem_cons_of_mem op hin)
    exact le_trans (next_id_applyOp m op h1) (ih (applyOp m op) h2)

/-- Over a sequence free of clear_all_tasks the assigned ids are strictly
increasing and all at least the starting counter. -/
theorem assignedIds_chain (ops : List Op) :
    ∀ m : TodoListManager, Op.clear ∉ ops →
      List.Chain' (fun a b => a < b) (assignedIds m ops) ∧
      ∀ i ∈ assignedIds m ops, m.next_id ≤ i := by
  induction ops with
  | nil =>
    intro m _
    simp [assignedIds]
  | cons op ops ih =>
    intro m h
    have h1 : op ≠ Op.clear := by
      intro he
      exact h (he ▸ List.mem_cons_self op ops)
    have h2 : Op.clear ∉ ops := fun hin => h (List.mem_cons_of_mem op hin)
    cases op with
    | add description priority category now =>
      by_cases hd : pyStrip description = ""
      · have hst : applyOp m (Op.add description priority category now) = m := by
          simp [applyOp, TodoListManager.add_task, hd]
        rw [show assignedIds m (Op.add description priority category now :: ops) =
            assignedIds (applyOp m (Op.add description priority category now)) ops from by
          simp [assignedIds, hd]]
        rw [hst]
        exact ih m h2
      · have hnext : (applyOp m (Op.add description priority category now)).next_id =
            m.next_id + 1 := by
          simp [applyOp, TodoListManager.add_task, hd, TodoListManager.save_tasks]
        rw [show assignedIds m (Op.add description priority category now :: ops) =
            m.next_id :: assignedIds (applyOp m (Op.add description priority category now)) ops
          from by simp [assignedIds, hd]]
        obtain ⟨hch, hbd⟩ := ih (applyOp m (Op.add description priority category now)) h2
        constructor
        · refine List.chain'_cons'.mpr ⟨?_, hch⟩
          intro y hy
          have hmem := List.mem_of_mem_head? hy
          have := hbd y hmem
          rw [hnext] at this
          omega
        · intro i hi
          rcases List.mem_cons.mp hi with rfl | hi
          · exact le_refl _
          · have := hbd i hi
            rw [hnext] at this
            omega
    | markCompleted task_description now =>
      have heq : assignedIds m (Op.markCompleted task_description now :: ops) =
          assignedIds (applyOp m (Op.markCompleted task_description now)) ops := by
        simp [assignedIds]
      rw [heq]
      obtain ⟨hch, hbd⟩ := ih (applyOp m (Op.markCompleted task_description now)) h2
      refine ⟨hch, ?_⟩
      intro i hi
      exact le_trans (next_id_applyOp m _ h1) (hbd i hi)
    | markCompletedById task_id now =>
      have heq : assignedIds m (Op.markCompletedById task_id now :: ops) =
          assignedIds (applyOp m (Op.markCompletedById task_id now)) ops := by
        simp [assignedIds]
      rw [heq]
      obtain ⟨hch, hbd⟩ := ih (applyOp m (Op.markCompletedById task_id now)) h2
      refine ⟨hch, ?_⟩
      intro i hi
      exact le_trans (next_id_applyOp m _ h1) (hbd i hi)
    | remove task_description =>
      have heq : assignedIds m (Op.remove task_description :: ops) =
          assignedIds (applyOp m (Op.remove task_description)) ops := by
        simp [assignedIds]
      rw [heq]
      obtain ⟨hch, hbd⟩ := ih (applyOp m (Op.remove task_description)) h2
      refine ⟨hch, ?_⟩
      intro i hi
      exact le_trans (next_id_applyOp m _ h1) (hbd i hi)
    | clear =>
      exact absurd rfl h1

/-- C2 counterexample: clear_all_tasks is a manager operation that decrements
the next-id counter, so it is false that the counter never decrements across
any operation: after one add the counter is 2, and appending a clear brings
it back to 1. -/
theorem next_id_decrements_on_clear :
    (run (TodoListManager.init FileState.missing)
        [Op.add "Buy milk" "medium" "general" "t1", Op.clear]).next_id <
      (run (TodoListManager.init FileState.missing)
        [Op.add "Buy milk" "medium" "general" "t1"]).next_id := by
  decide

/-- C2 amended: over any sequence of manager operations that does not contain
clear_all_tasks, the ids assigned by successive add_task calls are strictly
increasing in assignment order (so no id, removed or not, is ever assigned
twice), the counter never decrements, and a removal keeps every surviving
task, its id included, unchanged. -/
theorem ids_monotone_without_clear (m : TodoListManager) (ops : List Op)
    (h : Op.clear ∉ ops) :
    List.Chain' (fun a b => a < b) (assignedIds m ops) ∧
    m.next_id ≤ (run m ops).next_id ∧
    ∀ task_description, ∀ t ∈ (m.remove_task task_description).2.tasks, t ∈ m.tasks := by
  refine ⟨(assignedIds_chain ops m h).1, next_id_run ops m h, ?_⟩
  intro task_description t ht
  cases hr : removeFirst task_description m.tasks with
  | none =>
    rw [TodoListManager.remove_task, hr] at ht
    exact ht
  | some us =>
    obtain ⟨l₁, u, l₂, hts, _, _, hus⟩ := removeFirst_eq_some task_description m.tasks us hr
    rw [TodoListManager.remove_task, hr] at ht
    simp only [TodoListManager.save_tasks, hus] at ht
    rw [hts]
    rcases List.mem_append.mp ht with h1 | h2
    · exact List.mem_append_left _ h1
    · exact List.mem_append_right _ (List.mem_cons_of_mem u h2)

/-- Witness for C2 at a concrete clear-free sequence with a removal between
two adds. -/
theorem ids_monotone_without_clear_witness :
    List.Chain' (fun a b => a < b)
      (assignedIds (TodoListManager.init FileState.missing)
        [Op.add "Buy milk" "medium" "general" "t1", Op.remove "Buy milk",
         Op.add "Buy bread" "medium" "general" "t2"]) :=
  (ids_monotone_without_clear (TodoListManager.init FileState.missing)
    [Op.add "Buy milk" "medium" "general" "t1", Op.remove "Buy milk",
     Op.add "Buy bread" "medium" "general" "t2"] (by decide)).1

end Todo
